import Mathlib

/-!
Shallow embedding of `src/ephys/spikeglx.py` (SpikeGLX electrophysiology reader).

Modelling conventions:
* Python `int` is `Int`; Python `float` is `ℚ` (all metadata literals are finite
  decimals, exactly representable; `inf`/`nan` never occur in metadata files).
* The binary file is modelled as its list of already-decoded dtype elements
  (`List Int`); byte width and dtype are abstracted, so the source's
  `file_size // (n_channel * itemsize)` becomes `file.length / n_channel`.
* Fallible Python code (exceptions) is modelled with `Except PyError`.
* `dict` is an insertion-ordered association list with replace-on-assign.
* Filesystem concerns (path pairing, existence checks, `finder`) are outside the
  model; functions take the parsed metadata and file contents directly.
-/

/-- Python exception kinds raised by the embedded code. -/
inductive PyError where
  /-- `ValueError: not enough values to unpack` from tuple unpacking
      (the spec's `MalformedLine` when raised by `read_meta`). -/
  | unpackError
  /-- `ValueError: invalid literal for int()`. -/
  | intParseError
  /-- `IndexError`. -/
  | indexError
  /-- `KeyError` with the missing key. -/
  | keyError (k : String)
  /-- `TypeError` (also standing in for `AttributeError` on wrong-typed values). -/
  | typeError
  /-- `ZeroDivisionError`. -/
  | zeroDivisionError
  /-- `ValueError` raised explicitly with a message. -/
  | valueError (msg : String)
deriving DecidableEq

/-- Python whitespace characters recognised by `str.strip()` / `str.split()`. -/
def isPyWs (c : Char) : Bool :=
  c == ' ' || c == '\t' || c == '\n' || c == '\r' || c == Char.ofNat 11 || c == Char.ofNat 12

/-- `str.strip()` on a character list. -/
def stripChars (l : List Char) : List Char :=
  ((l.dropWhile isPyWs).reverse.dropWhile isPyWs).reverse

/-- `str.strip()`. -/
def pyStrip (s : String) : String := String.mk (stripChars s.data)

/-- Numeric value of a digit string (caller guarantees digits only). -/
def digitsToNat (l : List Char) : Nat :=
  l.foldl (fun a c => 10 * a + (c.toNat - 48)) 0

/-- A nonempty all-digit character list, as a number. -/
def parseDigits (l : List Char) : Option Nat :=
  if l.isEmpty then none
  else if l.all Char.isDigit then some (digitsToNat l) else none

/-- Python `int(str)`: optional surrounding whitespace, optional sign, digits. -/
def pyInt? (s : String) : Option Int :=
  match stripChars s.data with
  | '+' :: ds => (parseDigits ds).map (fun n => (n : Int))
  | '-' :: ds => (parseDigits ds).map (fun n => -(n : Int))
  | ds => (parseDigits ds).map (fun n => (n : Int))

/-- Exponent suffix of a float literal: optional sign, digits, end of string. -/
def expPart (l : List Char) : Option Int :=
  match l with
  | '+' :: ds => (parseDigits ds).map (fun n => (n : Int))
  | '-' :: ds => (parseDigits ds).map (fun n => -(n : Int))
  | ds => (parseDigits ds).map (fun n => (n : Int))

/-- Unsigned mantissa of a float literal (`d+`, `d+.d*` or `.d+`), returning its
    value and the unconsumed remainder. -/
def mantissaAndRest (l : List Char) : Option (ℚ × List Char) :=
  let ds1 := l.takeWhile Char.isDigit
  let r1 := l.dropWhile Char.isDigit
  match r1 with
  | '.' :: r2 =>
    let ds2 := r2.takeWhile Char.isDigit
    let r3 := r2.dropWhile Char.isDigit
    if ds1.isEmpty && ds2.isEmpty then none
    else some ((digitsToNat ds1 : ℚ) + (digitsToNat ds2 : ℚ) / (10 : ℚ) ^ ds2.length, r3)
  | _ => if ds1.isEmpty then none else some ((digitsToNat ds1 : ℚ), r1)

/-- Body of a float literal after the optional sign. -/
def floatBody (l : List Char) : Option ℚ := do
  let (m, rest) ← mantissaAndRest l
  match rest with
  | [] => pure m
  | 'e' :: r => do let e ← expPart r; pure (m * (10 : ℚ) ^ e)
  | 'E' :: r => do let e ← expPart r; pure (m * (10 : ℚ) ^ e)
  | _ => none

/-- Python `float(str)` for finite decimal/scientific literals. `inf`/`nan` are
    not representable in `ℚ` and never occur in metadata; they parse as `none`
    (so `read_meta` would keep them as strings). -/
def pyFloat? (s : String) : Option ℚ :=
  match stripChars s.data with
  | '+' :: l => floatBody l
  | '-' :: l => (floatBody l).map Neg.neg
  | l => floatBody l

/-- `str.split('=', 1)`: `some (before, after)` when `'='` occurs, else `none`
    (where Python returns a 1-element list whose unpacking raises). -/
def splitEq1 (s : String) : Option (String × String) :=
  let l := s.data
  if l.contains '=' then
    some (String.mk (l.takeWhile (fun c => c != '=')),
          String.mk ((l.dropWhile (fun c => c != '=')).tail))
  else none

/-- `str.split(sep)` keeping empty parts, on character lists. -/
def splitOnChar (sep : Char) : List Char → List (List Char)
  | [] => [[]]
  | c :: rest =>
    let r := splitOnChar sep rest
    if c == sep then [] :: r
    else
      match r with
      | h :: t => (c :: h) :: t
      | [] => [[c]]

/-- `str.split(',')`. -/
def pySplitComma (s : String) : List String := (splitOnChar ',' s.data).map String.mk

/-- `str.split(':')`. -/
def pySplitColon (s : String) : List String := (splitOnChar ':' s.data).map String.mk

/-- Helper for `str.split()` (no separator): accumulate the current word. -/
def splitWsAux : List Char → List Char → List (List Char)
  | [], acc => if acc.isEmpty then [] else [acc.reverse]
  | c :: rest, acc =>
    if isPyWs c then
      if acc.isEmpty then splitWsAux rest []
      else acc.reverse :: splitWsAux rest []
    else splitWsAux rest (c :: acc)

/-- `str.split()` with no argument: whitespace runs separate, no empty parts. -/
def pySplitWs (s : String) : List String := (splitWsAux s.data []).map String.mk

/-- `str.endswith(suffix)`. -/
def pyEndsWith (s suffix : String) : Bool := suffix.data.isSuffixOf s.data

/-- Effectful map over a list (a Python `for`/comprehension whose body may raise). -/
def mapME {α β : Type} (f : α → Except PyError β) : List α → Except PyError (List β)
  | [] => .ok []
  | a :: l => do
    let b ← f a
    let bs ← mapME f l
    .ok (b :: bs)

/-- `int(s)` where failure raises `ValueError`. -/
def pyIntE (s : String) : Except PyError Int :=
  match pyInt? s with
  | some i => .ok i
  | none => .error .intParseError

/-- One per-channel record of the Imec Readout Table, modelled as the Python
    dict with optional fields for the layout-dependent keys (lines 250-281). -/
structure ImroChannel where
  channel : Int
  bank : Option Int := none
  bank_mask : Option Int := none
  shank : Option Int := none
  refid : Option Int := none
  electrode : Option Int := none
  apgain : Int
  lfgain : Option Int := none
  apfilt : Option Int := none
deriving DecidableEq

/-- Result of `parse_imrotbl` (line 287). -/
structure ImroTbl where
  probe_type : Int
  num_channels : Int
  channels : List ImroChannel
deriving DecidableEq

/-- The `{MN, MA, XA, DW}` sub-count record (lines 211-216). -/
structure MnMaXaDw where
  MN : Int
  MA : Int
  XA : Int
  DW : Int
deriving DecidableEq

/-- The `{AP, LF, SY}` sub-count record (lines 219-223). -/
structure ApLfSy where
  AP : Int
  LF : Int
  SY : Int
deriving DecidableEq

/-- Header of `snsChanMap`: 5-field nidq form or 3-field imec form (lines 295-308). -/
inductive ChanMapHeader where
  | ni (MN_channels MA_channels mux_channels XA_channels XD_words : Int)
  | im (AP_channels LF_channels SY_channels : Int)
deriving DecidableEq

/-- One `(name;channel:order)` entry of `snsChanMap` (lines 316-320). -/
structure ChanMapEntry where
  name : String
  channel : Int
  order : Int
deriving DecidableEq

/-- Result of `parse_snschanmap` (lines 322-325). -/
structure SnsChanMap where
  header : ChanMapHeader
  channel_map : List ChanMapEntry
deriving DecidableEq

/-- Header of `snsGeomMap` (lines 366-371). -/
structure GeomHeader where
  part_number : String
  shank_count : Int
  shank_spacing : Int
  per_shank_width : Int
deriving DecidableEq

/-- One electrode entry of `snsGeomMap` (lines 358-363). -/
structure GeomElectrode where
  shank : Int
  x : Int
  z : Int
  used : Bool
deriving DecidableEq

/-- Result of `parse_snsgeommap` (lines 365-373). -/
structure SnsGeomMap where
  header : GeomHeader
  electrodes : List GeomElectrode
deriving DecidableEq

/-- A value stored in the metadata dict (line 192: int / float / str / parsed record). -/
inductive MetaValue where
  | int (i : Int)
  | float (q : ℚ)
  | str (s : String)
  | imro (t : ImroTbl)
  | chanmap (m : SnsChanMap)
  | geommap (g : SnsGeomMap)
  | counts4 (c : MnMaXaDw)
  | counts3 (c : ApLfSy)
deriving DecidableEq

/-- The metadata mapping: a Python dict as an insertion-ordered association list. -/
abbrev Metadata := List (String × MetaValue)

/-- Python `d[k] = v`: replace the value at an existing key in place, else append. -/
def dictInsert (m : Metadata) (k : String) (v : MetaValue) : Metadata :=
  if m.any (fun p => p.1 == k) then
    m.map (fun p => if p.1 == k then (k, v) else p)
  else m ++ [(k, v)]

/-- Python `d[k]`: raises `KeyError` when absent. -/
def lookupE (m : Metadata) (k : String) : Except PyError MetaValue :=
  match List.lookup k m with
  | some v => .ok v
  | none => .error (.keyError k)

/-- Scanner for `re.findall(r'\((.*?)\)', value)` on a newline-free line: each
    `(` opens a capture that the first following `)` closes (non-greedy `.*?`);
    an unterminated group matches nothing. -/
def parenGroupsAux : List Char → Option (List Char) → List String
  | [], _ => []
  | c :: rest, none =>
    if c == '(' then parenGroupsAux rest (some []) else parenGroupsAux rest none
  | c :: rest, some acc =>
    if c == ')' then String.mk acc.reverse :: parenGroupsAux rest none
    else parenGroupsAux rest (c :: acc)

/-- `re.findall(r'\((.*?)\)', s)` (line 239). -/
def findParenGroups (s : String) : List String := parenGroupsAux s.data none

/-- The three known probe-type sets and their field layouts (lines 248-281):
    builds a channel record when the field count matches the layout selected by
    `probe_type`, and drops the entry otherwise. -/
def buildImroChannel (probe_type : Int) (d : List Int) : Option ImroChannel :=
  if probe_type ∈ ([0, 1020, 1030, 1100, 1120, 1121, 1122, 1123, 1200, 1300] : List Int) then
    match d with
    | [ch, bk, rf, apg, lfg, apf] =>
      some { channel := ch, bank := some bk, refid := some rf, apgain := apg,
             lfgain := some lfg, apfilt := some apf }
    | _ => none
  else if probe_type ∈ ([21, 2003, 2004] : List Int) then
    match d with
    | [ch, bm, rf, el] =>
      some { channel := ch, bank_mask := some bm, refid := some rf,
             electrode := some el, apgain := 80 }
    | _ => none
  else if probe_type ∈ ([24, 2013, 2014] : List Int) then
    match d with
    | [ch, sh, bk, rf, el] =>
      some { channel := ch, shank := some sh, bank := some bk, refid := some rf,
             electrode := some el, apgain := 80 }
    | _ => none
  else none

/-- `parse_imrotbl` (lines 237-287). -/
def parse_imrotbl (value : String) : Except PyError ImroTbl :=
  match findParenGroups value with
  | [] => .error .indexError
  | e0 :: rest => do
    let hd ← mapME pyIntE (pySplitComma e0)
    match hd with
    | [probe_type, num_channels] => do
      let datas ← mapME (fun e => mapME pyIntE (pySplitWs e)) rest
      .ok { probe_type := probe_type, num_channels := num_channels,
            channels := datas.filterMap (buildImroChannel probe_type) }
    | _ => .error .unpackError

/-- Expect one specific character. -/
def expectChar (c : Char) : List Char → Option (List Char)
  | x :: rest => if x == c then some rest else none
  | [] => none

/-- A nonempty digit run and the remainder. -/
def takeNat (l : List Char) : Option (Nat × List Char) :=
  let ds := l.takeWhile Char.isDigit
  if ds.isEmpty then none else some (digitsToNat ds, l.dropWhile Char.isDigit)

/-- `re.match(r'\((\d+),(\d+),(\d+),(\d+),(\d+)\)', s)` (line 292). -/
def matchHeader5 (s : String) : Option (Int × Int × Int × Int × Int) := do
  let r ← expectChar '(' s.data
  let (d1, r) ← takeNat r
  let r ← expectChar ',' r
  let (d2, r) ← takeNat r
  let r ← expectChar ',' r
  let (d3, r) ← takeNat r
  let r ← expectChar ',' r
  let (d4, r) ← takeNat r
  let r ← expectChar ',' r
  let (d5, r) ← takeNat r
  let _ ← expectChar ')' r
  pure ((d1 : Int), (d2 : Int), (d3 : Int), (d4 : Int), (d5 : Int))

/-- `re.match(r'\((\d+),(\d+),(\d+)\)', s)` (line 293). -/
def matchHeader3 (s : String) : Option (Int × Int × Int) := do
  let r ← expectChar '(' s.data
  let (d1, r) ← takeNat r
  let r ← expectChar ',' r
  let (d2, r) ← takeNat r
  let r ← expectChar ',' r
  let (d3, r) ← takeNat r
  let _ ← expectChar ')' r
  pure ((d1 : Int), (d2 : Int), (d3 : Int))

/-- One match of `r'\(([^;]+);(\d+):(\d+)\)'` starting at the head of `l`. -/
def matchChanEntry (l : List Char) : Option (ChanMapEntry × List Char) := do
  let r ← expectChar '(' l
  let name := r.takeWhile (fun c => c != ';')
  if name.isEmpty then none
  else do
    let r1 ← expectChar ';' (r.dropWhile (fun c => c != ';'))
    let (d1, r2) ← takeNat r1
    let r3 ← expectChar ':' r2
    let (d2, r4) ← takeNat r3
    let r5 ← expectChar ')' r4
    pure ({ name := String.mk name, channel := (d1 : Int), order := (d2 : Int) }, r5)

/-- `re.finditer` scan for the channel-entry pattern: try each position left to
    right, consuming matches whole (the fuel is the input length, enough since
    every step consumes at least one character). -/
def scanChanEntriesAux : Nat → List Char → List ChanMapEntry
  | 0, _ => []
  | _, [] => []
  | fuel + 1, c :: rest =>
    match matchChanEntry (c :: rest) with
    | some (e, r) => e :: scanChanEntriesAux fuel r
    | none => scanChanEntriesAux fuel rest

/-- `parse_snschanmap` (lines 290-325). -/
def parse_snschanmap (value : String) : Except PyError SnsChanMap :=
  match matchHeader5 value with
  | some (mn, ma, mux, xa, xd) =>
    .ok { header := .ni mn ma mux xa xd,
          channel_map := scanChanEntriesAux value.data.length value.data }
  | none =>
    match matchHeader3 value with
    | some (ap, lf, sy) =>
      .ok { header := .im ap lf sy,
            channel_map := scanChanEntriesAux value.data.length value.data }
    | none => .error (.valueError "Invalid header format in snsChanMap")

/-- One match of `r'\(([^)]+)\)'` starting at the head of `l`. -/
def matchGeomGroup (l : List Char) : Option (List Char × List Char) := do
  let r ← expectChar '(' l
  let grp := r.takeWhile (fun c => c != ')')
  if grp.isEmpty then none
  else do
    let r2 ← expectChar ')' (r.dropWhile (fun c => c != ')'))
    pure (grp, r2)

/-- `re.findall(r'\(([^)]+)\)', value)` (line 345): scan left to right. -/
def scanGeomGroupsAux : Nat → List Char → List String
  | 0, _ => []
  | _, [] => []
  | fuel + 1, c :: rest =>
    match matchGeomGroup (c :: rest) with
    | some (g, r) => String.mk g :: scanGeomGroupsAux fuel r
    | none => scanGeomGroupsAux fuel rest

/-- `parse_snsgeommap` (lines 328-373). The electrode loop runs before the
    header fields are converted, matching the source's evaluation order. -/
def parse_snsgeommap (value : String) : Except PyError SnsGeomMap :=
  match scanGeomGroupsAux value.data.length value.data with
  | [] => .error (.valueError "Invalid snsGeomMap format")
  | m0 :: ms => do
    let electrodes ← mapME (fun e => do
      let parts ← mapME pyIntE (pySplitColon e)
      match parts with
      | [s, x, z, u] => .ok ({ shank := s, x := x, z := z, used := u != 0 } : GeomElectrode)
      | _ => .error .unpackError) ms
    match pySplitComma m0 with
    | pn :: h1 :: h2 :: h3 :: _ => do
      let sc ← pyIntE h1
      let ss ← pyIntE h2
      let pw ← pyIntE h3
      .ok { header := { part_number := pn, shank_count := sc, shank_spacing := ss,
                        per_shank_width := pw },
            electrodes := electrodes }
    | _ => .error .indexError

/-- `key[1:]` after `key.startswith('~')` (lines 199-200). -/
def stripTilde (key0 : String) : String :=
  match key0.data with
  | '~' :: rest => String.mk rest
  | _ => key0

/-- Processing of one metadata line (lines 197-233): strip, split on the first
    `'='`, strip the leading `'~'`, then dispatch on the key. -/
def processLine (line : String) : Except PyError (String × MetaValue) :=
  match splitEq1 (pyStrip line) with
  | none => .error .unpackError
  | some (key0, value) =>
    let key := stripTilde key0
    if key == "imroTbl" then do
      let t ← parse_imrotbl value
      .ok (key, .imro t)
    else if key == "snsChanMap" then do
      let m ← parse_snschanmap value
      .ok (key, .chanmap m)
    else if key == "snsGeomMap" then do
      let g ← parse_snsgeommap value
      .ok (key, .geommap g)
    else if key == "acqMnMaXaDw" || key == "snsMnMaXaDw" then do
      let values ← mapME pyIntE (pySplitComma value)
      match values with
      | mn :: ma :: xa :: dw :: _ => .ok (key, .counts4 ⟨mn, ma, xa, dw⟩)
      | _ => .error .indexError
    else if key == "snsApLfSy" then do
      let values ← mapME pyIntE (pySplitComma value)
      match values with
      | ap :: lf :: sy :: _ => .ok (key, .counts3 ⟨ap, lf, sy⟩)
      | _ => .error .indexError
    else
      match pyInt? value with
      | some i => .ok (key, .int i)
      | none =>
        match pyFloat? value with
        | some q => .ok (key, .float q)
        | none => .ok (key, .str value)

/-- The line loop of `read_meta`, threading the growing dict. -/
def foldMeta : Metadata → List String → Except PyError Metadata
  | m, [] => .ok m
  | m, line :: rest => do
    let (k, v) ← processLine line
    foldMeta (dictInsert m k v) rest

/-- `read_meta` (lines 179-234), over the file's list of lines. -/
def read_meta (lines : List String) : Except PyError Metadata := foldMeta [] lines

/-- Python truthiness of a metadata value (`x or y` keeps `x` when truthy):
    zero numbers and the empty string are falsy; the parsed compound records are
    nonempty dicts, hence always truthy. -/
def pyTruthy : MetaValue → Bool
  | .int i => i != 0
  | .float q => q != 0
  | .str s => s != ""
  | _ => true

/-- Python `a or b` over `dict.get` results (`None` is falsy). -/
def pyOr (a b : Option MetaValue) : Option MetaValue :=
  match a with
  | some v => if pyTruthy v then some v else b
  | none => b

/-- A metadata value as a number, when it is one. -/
def toNum : MetaValue → Option ℚ
  | .int i => some (i : ℚ)
  | .float q => some q
  | _ => none

/-- A metadata value as a number; arithmetic on anything else raises `TypeError`. -/
def toNumE (v : MetaValue) : Except PyError ℚ :=
  match toNum v with
  | some q => .ok q
  | none => .error .typeError

/-- `get_channel_idx` (lines 431-472): the analog or digital channel range as a
    `slice(start, stop)`, modelled as the pair of its bounds. -/
def get_channel_idx (meta : Metadata) (analog : Bool) : Except PyError (Int × Int) := do
  let tv ← lookupE meta "typeThis"
  if tv == .str "imec" then do
    let alv ← lookupE meta "snsApLfSy"
    match alv with
    | .counts3 c =>
      if analog then .ok (0, c.AP + c.LF)
      else .ok (c.AP + c.LF, c.AP + c.LF + c.SY)
    | _ => .error .typeError
  else if tv == .str "nidq" then do
    let cv ← lookupE meta "snsMnMaXaDw"
    match cv with
    | .counts4 c =>
      if analog then .ok (0, c.MN + c.MA + c.XA)
      else .ok (c.MN + c.MA + c.XA, c.MN + c.MA + c.XA + c.DW)
    | _ => .error .typeError
  else .error (.valueError "Unrecognized recording type")

/-- `get_gain` (lines 376-421). The final `else` of the imec branch interpolates
    `meta['filename']` (lowercase n, line 404) into the error message: when that
    key is absent — the metadata key written by SpikeGLX is `fileName` — Python
    raises `KeyError('filename')` before the `ValueError` is ever constructed. -/
def get_gain (meta : Metadata) : Except PyError (List ℚ) := do
  let tv ← lookupE meta "typeThis"
  if tv == .str "imec" then
    match List.lookup "imroTbl" meta with
    | none => .error (.valueError "Missing imroTbl or channels in metadata for imec recording")
    | some (.imro t) => do
      let fnv ← lookupE meta "fileName"
      match fnv with
      | .str fn =>
        if pyEndsWith fn ".ap.bin" then
          .ok (t.channels.map (fun ch => (ch.apgain : ℚ)))
        else if pyEndsWith fn ".lf.bin" then do
          let gs ← mapME (fun ch =>
            match ch.lfgain with
            | some g => .ok g
            | none => .error (.keyError "lfgain")) t.channels
          .ok (gs.map (fun g => (g : ℚ)))
        else
          match List.lookup "filename" meta with
          | none => .error (.keyError "filename")
          | some _ => .error (.valueError "Unrecognized file type for imec recording")
      | _ => .error .typeError
    | some _ => .error .typeError
  else if tv == .str "nidq" then
    match List.lookup "snsMnMaXaDw" meta, List.lookup "niMNGain" meta,
          List.lookup "niMAGain" meta with
    | some cv, some mnv, some mav =>
      match cv with
      | .counts4 c =>
        -- negative counts would make numpy's `ones`/slice assignment misbehave;
        -- they never occur in parsed metadata and are modelled as an error
        if c.MN < 0 || c.MA < 0 || c.XA < 0 || c.DW < 0 then
          .error (.valueError "negative channel count")
        else do
          let mn ← toNumE mnv
          let ma ← toNumE mav
          .ok (List.replicate c.MN.toNat mn ++ List.replicate c.MA.toNat ma ++
               List.replicate (c.XA.toNat + c.DW.toNat) 1)
      | _ => .error .typeError
    | _, _, _ => .error (.valueError "Missing required metadata for nidq recording")
  else .error (.valueError "Unrecognized recording type")

/-- `get_uV_per_bit` (lines 424-428): `1000000 * AiRangeMax / MaxInt / gains`
    elementwise, where both scalars come from `meta.get(im...) or meta.get(ni...)`
    (`or 512` for `MaxInt`). numpy turns division by a zero gain into `inf` with
    a warning; `ℚ` has no infinities, so a zero gain (never produced by a real
    gain table) is modelled as an error. -/
def get_uV_per_bit (meta : Metadata) : Except PyError (List ℚ) := do
  let aiv := pyOr (List.lookup "imAiRangeMax" meta) (List.lookup "niAiRangeMax" meta)
  let miv := pyOr (pyOr (List.lookup "imMaxInt" meta) (List.lookup "niMaxInt" meta))
    (some (.int 512))
  let gains ← get_gain meta
  let AiRangeMax ← match aiv with
    | some v => toNumE v
    | none => .error .typeError
  let MaxInt ← match miv with
    | some v => toNumE v
    | none => .error .typeError
  if MaxInt == 0 then .error (.valueError "zero MaxInt")
  else if gains.any (fun g => g == 0) then .error (.valueError "zero gain")
  else .ok (gains.map (fun g => 1000000 * AiRangeMax / MaxInt / g))

/-- `read_bin` (lines 132-176) over the file's element list. `FileNotFoundError`
    concerns the filesystem and is outside the model. The column selection is
    modelled as an index list (`slice(0, n_channel)` when absent); the source
    would let an out-of-range *slice* clamp, but every selection exercised here
    is in range, and an out-of-range *array* selection raises `IndexError`. -/
def read_bin (file : List Int) (n_channel : Nat) (channel_idx : Option (List Nat))
    (sample_range : Option (Nat × Nat)) : Except PyError (List (List Int)) :=
  let idx := channel_idx.getD (List.range n_channel)
  if n_channel == 0 then .error .zeroDivisionError
  else
    let n_sample_file := file.length / n_channel
    let sr := sample_range.getD (0, n_sample_file)
    if sr.2 < sr.1 then .error (.valueError "negative dimensions")
    else if file.length < sr.1 * n_channel + (sr.2 - sr.1) * n_channel then
      .error (.valueError "mmap length")
    else if idx.any (fun c => n_channel ≤ c) then .error .indexError
    else
      .ok ((List.range (sr.2 - sr.1)).map (fun i =>
        idx.map (fun c => file.getD ((sr.1 + i) * n_channel + c) 0)))

/-- A nonnegative `slice(start, stop)` as its list of selected indices. The
    channel-count slices built by `get_channel_idx` from parsed metadata are
    nonnegative; Python's negative (wrap-around) indices never arise here. -/
def sliceToIdx (s : Int × Int) : List Nat :=
  List.range' s.1.toNat (s.2.toNat - s.1.toNat)

/-- `meta['nSavedChans']` as the channel count shaping the memory map (lines
    59, 108): `KeyError` when absent; a non-integer or negative value cannot
    shape a memmap and is an error. -/
def getNSavedChans (meta : Metadata) : Except PyError Nat := do
  let nchv ← lookupE meta "nSavedChans"
  match nchv with
  | .int n => if n < 0 then .error (.valueError "negative channel count") else .ok n.toNat
  | _ => .error .typeError

/-- Line 61-62: the given channel selection, else the analog slice from
    `get_channel_idx`. -/
def resolveChannelIdx (meta : Metadata) (channel_idx : Option (List Nat)) :
    Except PyError (List Nat) :=
  match channel_idx with
  | some l => .ok l
  | none => do
    let s ← get_channel_idx meta true
    .ok (sliceToIdx s)

/-- `uV_per_bit[channel_idx]` (line 67): fancy indexing, `IndexError` out of
    range. -/
def selectScale (uV : List ℚ) (cidx : List Nat) : Except PyError (List ℚ) :=
  mapME (fun c =>
    match uV[c]? with
    | some q => .ok q
    | none => .error .indexError) cidx

/-- `read_analog` (lines 10-67) over the parsed metadata and the file's element
    list: reads raw samples with `read_bin` and scales them to microvolts by
    `uV_per_bit[channel_idx]` per channel. -/
def read_analog (file : List Int) (meta : Metadata) (channel_idx : Option (List Nat))
    (sample_range : Option (Nat × Nat)) : Except PyError (List (List ℚ)) := do
  let n_channel ← getNSavedChans meta
  let cidx ← resolveChannelIdx meta channel_idx
  let uV ← get_uV_per_bit meta
  let data ← read_bin file n_channel (some cidx) sample_range
  let sel ← selectScale uV cidx
  .ok (data.map (fun row => List.zipWith (fun (x : Int) (s : ℚ) => (x : ℚ) * s) row sel))

/-- One row of the event table built by `read_digital` (lines 122-127). -/
structure Event where
  time : ℚ
  sample : Nat
  chan : Nat
  type : Bool
deriving DecidableEq

/-- `np.unpackbits(<uint16 word>.view('uint8'), bitorder='little')`: the two
    little-endian bytes unpack LSB-first, i.e. bits 0..15 of the word in order. -/
def unpack16 (x : Int) : List Bool :=
  (List.range 16).map (fun k => x.toNat.testBit k)

/-- The unpacked bit matrix of line 115: every digital word of a sample row
    contributes its 16 bit lines. -/
def digitalBits (data : List (List Int)) : List (List Bool) :=
  data.map (fun row => row.flatMap unpack16)

/-- Bit of the unpacked matrix at (sample, line), `false` out of range (the
    extractor only reads in-range positions). -/
def bitAt (bits : List (List Bool)) (i j : Nat) : Bool :=
  (bits.getD i []).getD j false

/-- Lines 116-127: `np.where(np.diff(data_bits, axis=0) != 0)` lists the
    nonzero discrete differences in row-major order; each yields one event at
    sample `i + 1` whose type is the post-transition bit. -/
def transitionEvents (bits : List (List Bool)) (w : Nat) (rate : ℚ) : List Event :=
  (List.range (bits.length - 1)).flatMap (fun i =>
    (List.range w).filterMap (fun j =>
      if bitAt bits (i + 1) j ≠ bitAt bits i j then
        some { time := ((i + 1 : Nat) : ℚ) / rate, sample := i + 1, chan := j,
               type := bitAt bits (i + 1) j }
      else none))

/-- Line 109: `meta.get('imSampRate') or meta.get('niSampRate')`; dividing the
    timestamps by a non-number (including `None`) raises `TypeError`. -/
def getSampleRate (meta : Metadata) : Except PyError ℚ :=
  match pyOr (List.lookup "imSampRate" meta) (List.lookup "niSampRate" meta) with
  | some v => toNumE v
  | none => .error .typeError

/-- `read_digital` (lines 70-129) over the parsed metadata and the file's
    element list (dtype `uint16`, so each word has 16 bit lines). A zero sample
    rate would make numpy emit infinite times; it is modelled as an error and
    never arises from real metadata. -/
def read_digital (file : List Int) (meta : Metadata) : Except PyError (List Event) := do
  let n_channel ← getNSavedChans meta
  let sample_rate ← getSampleRate meta
  let s ← get_channel_idx meta false
  let data ← read_bin file n_channel (some (sliceToIdx s)) none
  if sample_rate == 0 then .error (.valueError "zero sample rate")
  else .ok (transitionEvents (digitalBits data) ((sliceToIdx s).length * 16) sample_rate)

/-! ### General helper lemmas -/

theorem except_bind_ok {α β : Type} {x : Except PyError α} {f : α → Except PyError β}
    {b : β} (h : x >>= f = .ok b) : ∃ a, x = .ok a ∧ f a = .ok b := by
  cases x with
  | error e => simp [Bind.bind, Except.bind] at h
  | ok a => exact ⟨a, rfl, by simpa [Bind.bind, Except.bind] using h⟩

theorem mapME_eq_ok_map {α β : Type} (f : α → Except PyError β) (g : α → β)
    (l : List α) (h : ∀ a ∈ l, f a = .ok (g a)) : mapME f l = .ok (l.map g) := by
  induction l with
  | nil => rfl
  | cons a t ih =>
    have ha := h a (by simp)
    have ht := ih (fun x hx => h x (by simp [hx]))
    simp [mapME, ha, ht, Bind.bind, Except.bind]

theorem mapME_isOk {α β : Type} (f : α → Except PyError β) (l : List α)
    (h : ∀ a ∈ l, ∃ b, f a = .ok b) : ∃ bs, mapME f l = .ok bs := by
  induction l with
  | nil => exact ⟨[], rfl⟩
  | cons a t ih =>
    obtain ⟨b, hb⟩ := h a (by simp)
    obtain ⟨bs, hbs⟩ := ih (fun x hx => h x (by simp [hx]))
    exact ⟨b :: bs, by simp [mapME, hb, hbs, Bind.bind, Except.bind]⟩

/-! ### C3: the analog/digital channel ranges partition the channel axis -/

/-- C3: for every metadata mapping of recording type imec or nidq (with the
    nonnegative channel sub-counts written by the acquisition software),
    `get_channel_idx` returns the analog slice and the digital slice as two
    contiguous integer intervals that are disjoint and whose union is exactly
    `[0, total channel count)`: `[0, AP+LF)` and `[AP+LF, AP+LF+SY)` for imec,
    `[0, MN+MA+XA)` and `[MN+MA+XA, MN+MA+XA+DW)` for nidq. -/
theorem c3_channel_partition :
    (∀ (meta : Metadata) (ap lf sy : Int),
      List.lookup "typeThis" meta = some (.str "imec") →
      List.lookup "snsApLfSy" meta = some (.counts3 ⟨ap, lf, sy⟩) →
      0 ≤ ap → 0 ≤ lf → 0 ≤ sy →
      get_channel_idx meta true = .ok (0, ap + lf) ∧
      get_channel_idx meta false = .ok (ap + lf, ap + lf + sy) ∧
      Finset.Ico (0 : Int) (ap + lf) ∪ Finset.Ico (ap + lf) (ap + lf + sy) =
        Finset.Ico (0 : Int) (ap + lf + sy) ∧
      Disjoint (Finset.Ico (0 : Int) (ap + lf)) (Finset.Ico (ap + lf) (ap + lf + sy))) ∧
    (∀ (meta : Metadata) (mn ma xa dw : Int),
      List.lookup "typeThis" meta = some (.str "nidq") →
      List.lookup "snsMnMaXaDw" meta = some (.counts4 ⟨mn, ma, xa, dw⟩) →
      0 ≤ mn → 0 ≤ ma → 0 ≤ xa → 0 ≤ dw →
      get_channel_idx meta true = .ok (0, mn + ma + xa) ∧
      get_channel_idx meta false = .ok (mn + ma + xa, mn + ma + xa + dw) ∧
      Finset.Ico (0 : Int) (mn + ma + xa) ∪
        Finset.Ico (mn + ma + xa) (mn + ma + xa + dw) =
        Finset.Ico (0 : Int) (mn + ma + xa + dw) ∧
      Disjoint (Finset.Ico (0 : Int) (mn + ma + xa))
        (Finset.Ico (mn + ma + xa) (mn + ma + xa + dw))) := by
  constructor
  · intro meta ap lf sy h1 h2 hap hlf hsy
    refine ⟨?_, ?_, ?_, ?_⟩
    · simp [get_channel_idx, lookupE, h1, h2, Bind.bind, Except.bind]
    · simp [get_channel_idx, lookupE, h1, h2, Bind.bind, Except.bind]
    · exact Finset.Ico_union_Ico_eq_Ico (by omega) (by omega)
    · exact Finset.Ico_disjoint_Ico_consecutive 0 (ap + lf) (ap + lf + sy)
  · intro meta mn ma xa dw h1 h2 hmn hma hxa hdw
    refine ⟨?_, ?_, ?_, ?_⟩
    · simp [get_channel_idx, lookupE, h1, h2, Bind.bind, Except.bind]
    · simp [get_channel_idx, lookupE, h1, h2, Bind.bind, Except.bind]
    · exact Finset.Ico_union_Ico_eq_Ico (by omega) (by omega)
    · exact Finset.Ico_disjoint_Ico_consecutive 0 (mn + ma + xa) (mn + ma + xa + dw)

/-- Metadata of an imec recording used to witness the analog/digital partition. -/
def c3_imec_meta : Metadata :=
  [("typeThis", .str "imec"), ("snsApLfSy", .counts3 ⟨384, 384, 1⟩)]

/-- Metadata of a nidq recording used to witness the analog/digital partition. -/
def c3_nidq_meta : Metadata :=
  [("typeThis", .str "nidq"), ("snsMnMaXaDw", .counts4 ⟨4, 2, 8, 1⟩)]

/-- Witness for C3 at concrete imec and nidq metadata. -/
theorem c3_channel_partition_witness :
    (get_channel_idx c3_imec_meta true = .ok (0, 768) ∧
      get_channel_idx c3_imec_meta false = .ok (768, 769) ∧
      Finset.Ico (0 : Int) 768 ∪ Finset.Ico (768 : Int) 769 = Finset.Ico (0 : Int) 769 ∧
      Disjoint (Finset.Ico (0 : Int) 768) (Finset.Ico (768 : Int) 769)) ∧
    (get_channel_idx c3_nidq_meta true = .ok (0, 14) ∧
      get_channel_idx c3_nidq_meta false = .ok (14, 15) ∧
      Finset.Ico (0 : Int) 14 ∪ Finset.Ico (14 : Int) 15 = Finset.Ico (0 : Int) 15 ∧
      Disjoint (Finset.Ico (0 : Int) 14) (Finset.Ico (14 : Int) 15)) := by
  constructor
  · have h := c3_channel_partition.1 c3_imec_meta 384 384 1 (by rfl) (by rfl)
      (by norm_num) (by norm_num) (by norm_num)
    simpa using h
  · have h := c3_channel_partition.2 c3_nidq_meta 4 2 8 1 (by rfl) (by rfl)
      (by norm_num) (by norm_num) (by norm_num) (by norm_num)
    simpa using h

/-! ### C4: read_bin row counts and concatenation over split sample ranges -/

/-- Evaluation of `read_bin` on an in-bounds window: the memory-mapped view of
    rows `a..b-1` restricted to the selected columns. -/
theorem read_bin_window (file : List Int) (nch : Nat) (idx : List Nat) (a b : Nat)
    (hch : 0 < nch) (hidx : ∀ c ∈ idx, c < nch) (hab : a ≤ b)
    (hbN : b ≤ file.length / nch) :
    read_bin file nch (some idx) (some (a, b)) =
      .ok ((List.range (b - a)).map (fun i =>
        idx.map (fun c => file.getD ((a + i) * nch + c) 0))) := by
  unfold read_bin
  have h0 : (nch == 0) = false := by simp; omega
  have h1 : ¬ (b < a) := by omega
  have h2 : ¬ (file.length < a * nch + (b - a) * nch) := by
    have he : a * nch + (b - a) * nch = b * nch := by
      rw [← Nat.add_mul, Nat.add_sub_cancel' hab]
    rw [he]
    have hb1 : b * nch ≤ (file.length / nch) * nch := Nat.mul_le_mul_right _ hbN
    have hb2 : (file.length / nch) * nch ≤ file.length := Nat.div_mul_le_self _ _
    omega
  have h3 : idx.any (fun c => nch ≤ c) = false := by
    rw [List.any_eq_false]
    intro c hc
    simp only [decide_eq_true_eq]
    exact fun hcc => absurd (hidx c hc) (by omega)
  simp [h0, h1, h2, h3]

/-- C4: on a file with a valid channel count, `read_bin` over `(a, b)` with
    `a ≤ b ≤` the total available sample count returns exactly `b - a` rows,
    and the reads over `(0, k)` and `(k, n)` concatenate to the read over
    `(0, n)` for every valid split point `k`. -/
theorem c4_read_bin_rows_concat (file : List Int) (nch : Nat) (idx : List Nat)
    (a b k n : Nat) (hch : 0 < nch) (hidx : ∀ c ∈ idx, c < nch)
    (hab : a ≤ b) (hbN : b ≤ file.length / nch)
    (hkn : k ≤ n) (hnN : n ≤ file.length / nch) :
    (∃ rows, read_bin file nch (some idx) (some (a, b)) = .ok rows ∧
      rows.length = b - a) ∧
    (∃ r1 r2 r3,
      read_bin file nch (some idx) (some (0, k)) = .ok r1 ∧
      read_bin file nch (some idx) (some (k, n)) = .ok r2 ∧
      read_bin file nch (some idx) (some (0, n)) = .ok r3 ∧
      r1 ++ r2 = r3) := by
  constructor
  · exact ⟨_, read_bin_window file nch idx a b hch hidx hab hbN, by simp⟩
  · refine ⟨_, _, _,
      read_bin_window file nch idx 0 k hch hidx (Nat.zero_le _) (le_trans hkn hnN),
      read_bin_window file nch idx k n hch hidx hkn hnN,
      read_bin_window file nch idx 0 n hch hidx (Nat.zero_le _) hnN, ?_⟩
    have hsplit : n - 0 = k + (n - k) := by omega
    rw [hsplit, List.range_add, List.map_append, List.map_map]
    congr 1
    apply List.map_congr_left
    intro i hi
    simp [Nat.zero_add]

/-- Witness for C4: a 3-sample, 2-channel file split at k = 1. -/
theorem c4_read_bin_rows_concat_witness :
    (∃ rows, read_bin [1, 2, 3, 4, 5, 6] 2 (some [0, 1]) (some (1, 3)) = .ok rows ∧
      rows.length = 2) ∧
    (∃ r1 r2 r3,
      read_bin [1, 2, 3, 4, 5, 6] 2 (some [0, 1]) (some (0, 1)) = .ok r1 ∧
      read_bin [1, 2, 3, 4, 5, 6] 2 (some [0, 1]) (some (1, 3)) = .ok r2 ∧
      read_bin [1, 2, 3, 4, 5, 6] 2 (some [0, 1]) (some (0, 3)) = .ok r3 ∧
      r1 ++ r2 = r3) := by
  have h := c4_read_bin_rows_concat [1, 2, 3, 4, 5, 6] 2 [0, 1] 1 3 1 3
    (by norm_num) (by decide) (by norm_num) (by norm_num) (by norm_num) (by norm_num)
  exact h

/-! ### C7: unknown probe types parse permissively with an empty channel list -/

/-- An unrecognized probe type selects none of the three field layouts. -/
theorem buildImroChannel_unknown (pt : Int) (d : List Int)
    (h : pt ∉ ([0, 1020, 1030, 1100, 1120, 1121, 1122, 1123, 1200, 1300,
                21, 2003, 2004, 24, 2013, 2014] : List Int)) :
    buildImroChannel pt d = none := by
  simp only [List.mem_cons, List.not_mem_nil, or_false, not_or] at h
  unfold buildImroChannel
  rw [if_neg (by simp only [List.mem_cons, List.not_mem_nil, or_false, not_or]; tauto),
      if_neg (by simp only [List.mem_cons, List.not_mem_nil, or_false, not_or]; tauto),
      if_neg (by simp only [List.mem_cons, List.not_mem_nil, or_false, not_or]; tauto)]

/-- C7: a GainTable text whose header parses to a probe type outside the three
    known probe-type sets (and whose entries are whitespace-separated integers,
    as in any GainTable text) parses successfully to a table that preserves the
    header's probe type and channel count and has an empty channel list. -/
theorem c7_unknown_probe_type (value e0 : String) (rest : List String) (pt nc : Int)
    (hentries : findParenGroups value = e0 :: rest)
    (hhd : mapME pyIntE (pySplitComma e0) = .ok [pt, nc])
    (hunknown : pt ∉ ([0, 1020, 1030, 1100, 1120, 1121, 1122, 1123, 1200, 1300,
                       21, 2003, 2004, 24, 2013, 2014] : List Int))
    (hwf : ∀ e ∈ rest, ∃ ds, mapME pyIntE (pySplitWs e) = .ok ds) :
    parse_imrotbl value = .ok ⟨pt, nc, []⟩ := by
  obtain ⟨ds, hds⟩ := mapME_isOk _ rest hwf
  unfold parse_imrotbl
  rw [hentries]
  simp only [hhd, hds, Bind.bind, Except.bind]
  have hnil : ds.filterMap (buildImroChannel pt) = [] := by
    rw [List.filterMap_eq_nil_iff]
    intro d hd
    exact buildImroChannel_unknown pt d hunknown
  rw [hnil]

/-- Witness for C7: probe type 9999 yields the header with no channels. -/
theorem c7_unknown_probe_type_witness :
    parse_imrotbl "(9999,10)(0 1 0 100 250 1)" = .ok ⟨9999, 10, []⟩ := by
  apply c7_unknown_probe_type "(9999,10)(0 1 0 100 250 1)" "9999,10"
    ["0 1 0 100 250 1"] 9999 10 (by rfl) (by rfl) (by decide)
  intro e he
  simp only [List.mem_singleton] at he
  subst he
  exact ⟨[0, 1, 0, 100, 250, 1], by rfl⟩

/-! ### C9: NP 2.0 probe types carry the constant AP gain 80 -/

/-- Channel records built for the NP 2.0 probe-type sets have `apgain = 80`. -/
theorem buildImroChannel_np20_apgain {pt : Int} {d : List Int} {ch : ImroChannel}
    (hpt : pt ∈ ([21, 2003, 2004, 24, 2013, 2014] : List Int))
    (hb : buildImroChannel pt d = some ch) : ch.apgain = 80 := by
  fin_cases hpt <;>
    (unfold buildImroChannel at hb
     first
     | rw [if_neg (by decide), if_pos (by decide)] at hb
     | rw [if_neg (by decide), if_neg (by decide), if_pos (by decide)] at hb) <;>
    (split at hb
     · exact (Option.some.inj hb) ▸ rfl
     · exact absurd hb (by simp))

/-- Evaluation of the imec AP-band branch of `get_gain`. -/
theorem get_gain_ap (meta : Metadata) (t : ImroTbl) (fn : String)
    (h1 : List.lookup "typeThis" meta = some (.str "imec"))
    (h2 : List.lookup "imroTbl" meta = some (.imro t))
    (h3 : List.lookup "fileName" meta = some (.str fn))
    (h4 : pyEndsWith fn ".ap.bin" = true) :
    get_gain meta = .ok (t.channels.map (fun ch => (ch.apgain : ℚ))) := by
  simp [get_gain, lookupE, h1, h2, h3, h4, Bind.bind, Except.bind]

/-- C9: for a GainTable text whose probe type lies in the single-shank set
    {21, 2003, 2004} or the multi-shank set {24, 2013, 2014}, every parsed
    channel record has `apgain = 80` irrespective of the integers in the text,
    and `get_gain` on an AP-band imec recording with that table returns the
    all-80 vector. -/
theorem c9_np20_apgain_constant (value : String) (t : ImroTbl)
    (hp : parse_imrotbl value = .ok t)
    (hpt : t.probe_type ∈ ([21, 2003, 2004, 24, 2013, 2014] : List Int)) :
    (∀ ch ∈ t.channels, ch.apgain = 80) ∧
    (∀ (meta : Metadata) (fn : String),
      List.lookup "typeThis" meta = some (.str "imec") →
      List.lookup "imroTbl" meta = some (.imro t) →
      List.lookup "fileName" meta = some (.str fn) →
      pyEndsWith fn ".ap.bin" = true →
      get_gain meta = .ok (t.channels.map (fun _ => (80 : ℚ)))) := by
  have hap : ∀ ch ∈ t.channels, ch.apgain = 80 := by
    unfold parse_imrotbl at hp
    cases hg : findParenGroups value with
    | nil => rw [hg] at hp; exact absurd hp (by simp)
    | cons e0 rest =>
      rw [hg] at hp
      obtain ⟨hd, hhd, hp⟩ := except_bind_ok hp
      match hd with
      | [] => exact absurd hp (by simp)
      | [p] => exact absurd hp (by simp)
      | p :: n :: x :: xs => exact absurd hp (by simp)
      | [p, n] =>
        obtain ⟨ds, hds, hp⟩ := except_bind_ok hp
        have ht := Except.ok.inj hp
        intro ch hch
        rw [← ht] at hch hpt
        simp only at hch hpt
        obtain ⟨d, hd2, hbd⟩ := List.mem_filterMap.1 hch
        exact buildImroChannel_np20_apgain hpt hbd
  refine ⟨hap, fun meta fn h1 h2 h3 h4 => ?_⟩
  rw [get_gain_ap meta t fn h1 h2 h3 h4]
  congr 1
  apply List.map_congr_left
  intro ch hch
  rw [hap ch hch]
  norm_num

/-- GainTable parsed from a probe-type-21 text for the C9 witness: the gains in
    the text (100, 101) do not appear; `apgain` is the constant 80. -/
def c9_tbl : ImroTbl :=
  ⟨21, 384,
    [{ channel := 0, bank_mask := some 1, refid := some 0, electrode := some 100, apgain := 80 },
     { channel := 1, bank_mask := some 2, refid := some 1, electrode := some 101, apgain := 80 }]⟩

/-- Imec AP-band metadata carrying `c9_tbl`, for the C9 witness. -/
def c9_meta : Metadata :=
  [("typeThis", .str "imec"), ("imroTbl", .imro c9_tbl),
   ("fileName", .str "rec.imec0.ap.bin")]

/-- Witness for C9 at the concrete probe-type-21 table. -/
theorem c9_np20_apgain_constant_witness :
    (∀ ch ∈ c9_tbl.channels, ch.apgain = 80) ∧
    get_gain c9_meta = .ok (c9_tbl.channels.map (fun _ => (80 : ℚ))) := by
  have h := c9_np20_apgain_constant "(21,384)(0 1 0 100)(1 2 1 101)" c9_tbl
    (by rfl) (by decide)
  exact ⟨h.1, h.2 c9_meta "rec.imec0.ap.bin" rfl rfl rfl (by decide)⟩

/-! ### C5: gain selection by band suffix, and the `meta['filename']` slip -/

/-- A legacy (NP 1.0) one-channel gain table with apgain 500 and lfgain 250. -/
def c5_tbl : ImroTbl :=
  ⟨0, 384, [{ channel := 0, bank := some 0, refid := some 0, apgain := 500,
              lfgain := some 250, apfilt := some 1 }]⟩

/-- Imec metadata whose binary filename carries the AP-band suffix. -/
def c5_ap_meta : Metadata :=
  [("typeThis", .str "imec"), ("imroTbl", .imro c5_tbl),
   ("fileName", .str "rec.imec0.ap.bin")]

/-- Imec metadata whose binary filename carries the LF-band suffix. -/
def c5_lf_meta : Metadata :=
  [("typeThis", .str "imec"), ("imroTbl", .imro c5_tbl),
   ("fileName", .str "rec.imec0.lf.bin")]

/-- Imec metadata whose binary filename carries neither band suffix. As in any
    metadata written by the acquisition software, the key is `fileName`; no
    `filename` key (lowercase n) exists. -/
def c5_other_meta : Metadata :=
  [("typeThis", .str "imec"), ("imroTbl", .imro c5_tbl),
   ("fileName", .str "rec.nidq.bin")]

/-- C5 (code bug): `get_gain` selects `apgain` for the AP-band suffix and
    `lfgain` for the LF-band suffix, but for any other filename the `raise`
    statement at line 404 interpolates `meta['filename']` — a typo for
    `meta['fileName']`, the key actually present — so evaluating the f-string
    raises `KeyError('filename')` and the intended
    `ValueError` (`UnrecognizedFileKind`) is never constructed. -/
theorem c5_get_gain_band_suffix :
    get_gain c5_ap_meta = .ok [500] ∧
    get_gain c5_lf_meta = .ok [250] ∧
    get_gain c5_other_meta = .error (.keyError "filename") := by
  refine ⟨by rfl, by rfl, by rfl⟩

/-! ### C8: a line without '=' aborts read_meta with no partial mapping -/

/-- The line loop distributes over concatenation, propagating errors. -/
theorem foldMeta_append (m0 : Metadata) (l1 l2 : List String) :
    foldMeta m0 (l1 ++ l2) = (foldMeta m0 l1) >>= fun m => foldMeta m l2 := by
  induction l1 generalizing m0 with
  | nil => simp [foldMeta, Bind.bind, Except.bind]
  | cons l t ih =>
    simp only [List.cons_append, foldMeta, Bind.bind, Except.bind]
    cases processLine l with
    | error e => rfl
    | ok kv => exact ih (dictInsert m0 kv.1 kv.2)

/-- A stripped line with no `'='` fails to unpack (the spec's `MalformedLine`). -/
theorem processLine_noEq (bad : String) (hbad : splitEq1 (pyStrip bad) = none) :
    processLine bad = .error .unpackError := by
  unfold processLine
  rw [hbad]

/-- C8: a metadata text containing a line with no `'='` separator never parses
    to a mapping — the exception escapes `read_meta` before the dict is
    returned — and when the lines before the offending one process cleanly the
    error is exactly the unpack failure (`MalformedLine`). -/
theorem c8_malformed_line (pre post : List String) (bad : String)
    (hbad : splitEq1 (pyStrip bad) = none) :
    (∀ m, read_meta (pre ++ bad :: post) ≠ .ok m) ∧
    (∀ m, foldMeta [] pre = .ok m →
      read_meta (pre ++ bad :: post) = .error .unpackError) := by
  have hstep : ∀ m : Metadata, foldMeta m (bad :: post) = .error .unpackError := by
    intro m
    simp only [foldMeta, processLine_noEq bad hbad, Bind.bind, Except.bind]
  constructor
  · intro m hm
    rw [read_meta, foldMeta_append] at hm
    cases hpre : foldMeta [] pre with
    | error e => rw [hpre] at hm; simp [Bind.bind, Except.bind] at hm
    | ok m1 =>
      rw [hpre] at hm
      simp only [Bind.bind, Except.bind, hstep] at hm
      exact Except.noConfusion hm
  · intro m hm
    rw [read_meta, foldMeta_append, hm]
    simp only [Bind.bind, Except.bind, hstep]

/-- Witness for C8: a well-formed line, then a separator-free line. -/
theorem c8_malformed_line_witness :
    read_meta ["nSavedChans=385", "corrupted line", "imSampRate=30000"] =
      .error .unpackError :=
  (c8_malformed_line ["nSavedChans=385"] ["imSampRate=30000"] "corrupted line"
    (by rfl)).2 [("nSavedChans", .int 385)] (by rfl)

/-! ### C10: duplicate keys do not fail; the last line's value wins -/

/-- Entries at other keys are untouched by a dict assignment's replacement pass. -/
theorem lookup_map_replace_ne (k' k : String) (hk : k' ≠ k) (v : MetaValue) (m : Metadata) :
    List.lookup k (m.map (fun p => if p.1 == k' then (k', v) else p)) =
      List.lookup k m := by
  induction m with
  | nil => rfl
  | cons p t ih =>
    obtain ⟨a, w⟩ := p
    simp only [List.map_cons]
    by_cases hp : a = k'
    · rw [if_pos (show ((a, w).1 == k') = true by simp [hp])]
      rw [List.lookup_cons, List.lookup_cons]
      have h2 : (k == k') = false := by
        simp only [beq_eq_false_iff_ne, ne_eq]
        exact fun h => hk h.symm
      have h3 : (k == a) = false := by
        simp only [beq_eq_false_iff_ne, ne_eq, hp]
        exact fun h => hk h.symm
      rw [h2, h3]
      exact ih
    · rw [if_neg (show ¬((a, w).1 == k') = true by simp [hp])]
      rw [List.lookup_cons, List.lookup_cons]
      cases hka : k == a with
      | true => rfl
      | false => exact ih

/-- A dict assignment at a present key makes its lookup return the new value. -/
theorem lookup_map_replace_eq (k' : String) (v : MetaValue) (m : Metadata)
    (hany : m.any (fun p => p.1 == k') = true) :
    List.lookup k' (m.map (fun p => if p.1 == k' then (k', v) else p)) = some v := by
  induction m with
  | nil => simp at hany
  | cons p t ih =>
    obtain ⟨a, w⟩ := p
    simp only [List.map_cons]
    by_cases hp : a = k'
    · rw [if_pos (show ((a, w).1 == k') = true by simp [hp])]
      rw [List.lookup_cons]
      simp
    · rw [if_neg (show ¬((a, w).1 == k') = true by simp [hp])]
      rw [List.lookup_cons]
      have h3 : (k' == a) = false := by
        simp only [beq_eq_false_iff_ne, ne_eq]
        exact fun h => hp h.symm
      rw [h3]
      simp only [List.any_cons] at hany
      have ha : ((a, w).1 == k') = false := by simp [hp]
      rw [ha, Bool.false_or] at hany
      exact ih hany

/-- A dict assignment at a fresh key appends it without touching the rest. -/
theorem lookup_append_new (k' k : String) (v : MetaValue) (m : Metadata)
    (hnone : ¬ m.any (fun p => p.1 == k') = true) :
    List.lookup k (m ++ [(k', v)]) = if k' = k then some v else List.lookup k m := by
  induction m with
  | nil =>
    by_cases hk : k' = k
    · subst hk; simp [List.lookup_cons]
    · have h3 : (k == k') = false := by
        simp only [beq_eq_false_iff_ne, ne_eq]
        exact fun h => hk h.symm
      simp [List.lookup_cons, h3, hk]
  | cons p t ih =>
    obtain ⟨a, w⟩ := p
    simp only [List.any_cons, Bool.or_eq_true, not_or] at hnone
    obtain ⟨hp, ht⟩ := hnone
    have hp1 : a ≠ k' := by
      intro h
      exact hp (by simp [h])
    simp only [List.cons_append, List.lookup_cons]
    cases hka : k == a with
    | true =>
      have hk : k' ≠ k := by
        intro h
        exact hp1 ((beq_iff_eq.1 hka) ▸ h.symm)
      rw [if_neg hk]
    | false => exact ih ht

/-- Python `d[k'] = v` seen through `d[k]`: the new value at `k'`, unchanged
    lookups everywhere else. -/
theorem lookup_dictInsert (m : Metadata) (k' k : String) (v : MetaValue) :
    List.lookup k (dictInsert m k' v) = if k' = k then some v else List.lookup k m := by
  unfold dictInsert
  by_cases hany : m.any (fun p => p.1 == k') = true
  · rw [if_pos hany]
    by_cases hk : k' = k
    · subst hk
      rw [if_pos rfl]
      exact lookup_map_replace_eq k' v m hany
    · rw [if_neg hk]
      exact lookup_map_replace_ne k' k hk v m
  · rw [if_neg hany]
    exact lookup_append_new k' k v m hany

/-- The value of the last line whose (marker-stripped) key is `k`, as the
    claim's "value parsed from the last such line". -/
def lastParsedValue (lines : List String) (k : String) : Option MetaValue :=
  lines.foldl (fun acc l =>
    match processLine l with
    | .ok kv => if kv.1 == k then some kv.2 else acc
    | .error _ => acc) none

/-- The line loop characterised key by key: each processed line overwrites its
    key, leaving every other key's lookup unchanged. -/
theorem foldMeta_lookup (lines : List String) (m0 : Metadata)
    (h : ∀ l ∈ lines, (processLine l).isOk = true) :
    ∃ m, foldMeta m0 lines = .ok m ∧ ∀ k, List.lookup k m =
      lines.foldl (fun acc l =>
        match processLine l with
        | .ok kv => if kv.1 == k then some kv.2 else acc
        | .error _ => acc) (List.lookup k m0) := by
  induction lines generalizing m0 with
  | nil => exact ⟨m0, rfl, fun k => rfl⟩
  | cons l t ih =>
    have hl := h l (by simp)
    cases hpl : processLine l with
    | error e => rw [hpl] at hl; simp [Except.isOk, Except.toBool] at hl
    | ok kv =>
      obtain ⟨m, hm, hk⟩ := ih (dictInsert m0 kv.1 kv.2) (fun x hx => h x (by simp [hx]))
      refine ⟨m, ?_, ?_⟩
      · simp [foldMeta, hpl, Bind.bind, Except.bind, hm]
      · intro k
        rw [hk k]
        simp only [List.foldl_cons, hpl]
        congr 1
        rw [lookup_dictInsert]
        by_cases hkk : kv.1 = k
        · rw [if_pos hkk, if_pos (by simp [hkk])]
        · rw [if_neg hkk, if_neg (by simp [hkk])]

/-- C10: a metadata text whose lines all process (duplicate keys included)
    parses successfully, and the resulting mapping sends every key to the value
    parsed from the last line carrying it — keys on a single line untouched. -/
theorem c10_duplicate_keys (lines : List String)
    (h : ∀ l ∈ lines, (processLine l).isOk = true) :
    ∃ m, read_meta lines = .ok m ∧
      ∀ k, List.lookup k m = lastParsedValue lines k :=
  foldMeta_lookup lines [] h

/-- Witness for C10: `nSavedChans` appears twice; the later value 64 wins. -/
theorem c10_duplicate_keys_witness :
    ∃ m, read_meta ["nSavedChans=385", "niSampRate=1000", "nSavedChans=64"] = .ok m ∧
      ∀ k, List.lookup k m =
        lastParsedValue ["nSavedChans=385", "niSampRate=1000", "nSavedChans=64"] k :=
  c10_duplicate_keys ["nSavedChans=385", "niSampRate=1000", "nSavedChans=64"] (by decide)

/-! ### C2 and C6: digital transition events -/

/-- Membership in the transition-event list: exactly the nonzero discrete
    differences, as events at the post-transition sample. -/
theorem mem_transitionEvents {bits : List (List Bool)} {w : Nat} {rate : ℚ} {e : Event} :
    e ∈ transitionEvents bits w rate ↔
      ∃ i j, i + 1 < bits.length ∧ j < w ∧ bitAt bits (i + 1) j ≠ bitAt bits i j ∧
        e = ⟨((i + 1 : Nat) : ℚ) / rate, i + 1, j, bitAt bits (i + 1) j⟩ := by
  unfold transitionEvents
  simp only [List.mem_flatMap, List.mem_filterMap, List.mem_range]
  constructor
  · rintro ⟨i, hi, j, hj, hf⟩
    split at hf
    · exact ⟨i, j, by omega, hj, by assumption, (Option.some.inj hf).symm⟩
    · exact absurd hf (by simp)
  · rintro ⟨i, j, hi, hj, hne, he⟩
    exact ⟨i, by omega, j, hj, by rw [if_pos hne, he]⟩

/-- The `np.where` scan is row-major: samples increase across rows, line
    indices increase within a row. -/
theorem transitionEvents_pairwise (bits : List (List Bool)) (w : Nat) (rate : ℚ) :
    (transitionEvents bits w rate).Pairwise
      (fun a b => a.sample < b.sample ∨ (a.sample = b.sample ∧ a.chan < b.chan)) := by
  unfold transitionEvents
  rw [List.pairwise_flatMap]
  constructor
  · intro i hi
    rw [List.pairwise_filterMap]
    apply List.Pairwise.imp ?_ (List.pairwise_lt_range w)
    intro j j' hjj x hx y hy
    split at hx
    · split at hy
      · have hx2 := Option.some.inj hx
        have hy2 := Option.some.inj hy
        right
        rw [← hx2, ← hy2]
        exact ⟨rfl, hjj⟩
      · exact absurd hy (by simp)
    · exact absurd hx (by simp)
  · apply List.Pairwise.imp ?_ (List.pairwise_lt_range _)
    intro i i' hii x hx y hy
    simp only [List.mem_filterMap, List.mem_range] at hx hy
    obtain ⟨j, hj, hfx⟩ := hx
    obtain ⟨j', hj', hfy⟩ := hy
    left
    split at hfx
    · split at hfy
      · rw [← Option.some.inj hfx, ← Option.some.inj hfy]
        show i + 1 < i' + 1
        omega
      · exact absurd hfy (by simp)
    · exact absurd hfx (by simp)

/-- A successful `read_digital` returns exactly a transition-event scan. -/
theorem read_digital_ok {file : List Int} {meta : Metadata} {events : List Event}
    (h : read_digital file meta = .ok events) :
    ∃ bits w rate, events = transitionEvents bits w rate := by
  unfold read_digital at h
  obtain ⟨nch, h2, h⟩ := except_bind_ok h
  obtain ⟨rate, h3, h⟩ := except_bind_ok h
  obtain ⟨s, h4, h⟩ := except_bind_ok h
  obtain ⟨data, h5, h⟩ := except_bind_ok h
  split at h
  · exact absurd h (by simp)
  · exact ⟨_, _, _, (Except.ok.inj h).symm⟩

/-- Metadata of a nidq recording with a single digital word, shared by the
    digital-event witnesses. -/
def digital_demo_meta : Metadata :=
  [("typeThis", .str "nidq"), ("nSavedChans", .int 1), ("niSampRate", .int 1000),
   ("snsMnMaXaDw", .counts4 ⟨0, 0, 0, 1⟩)]

/-- C2: `read_digital` never emits an event at sample index 0; an event with
    sample `s`, line `c` and type `ty` exists iff the unpacked bits differ
    between samples `s - 1` and `s` at line `c` with `ty` the post-transition
    bit; each such difference yields exactly one event (the (sample, line)
    projections are pairwise distinct); and the 2-sample single-line 0→1 signal
    produces exactly one onset event at sample 1. -/
theorem c2_digital_transitions :
    (∀ (file : List Int) (meta : Metadata) (events : List Event),
      read_digital file meta = .ok events → ∀ e ∈ events, 1 ≤ e.sample) ∧
    (∀ (bits : List (List Bool)) (w : Nat) (rate : ℚ) (s c : Nat) (ty : Bool),
      (∃ e ∈ transitionEvents bits w rate, e.sample = s ∧ e.chan = c ∧ e.type = ty) ↔
        (1 ≤ s ∧ s < bits.length ∧ c < w ∧ bitAt bits s c ≠ bitAt bits (s - 1) c ∧
          ty = bitAt bits s c)) ∧
    (∀ (bits : List (List Bool)) (w : Nat) (rate : ℚ),
      ((transitionEvents bits w rate).map (fun e => (e.sample, e.chan))).Nodup) ∧
    read_digital [0, 1] digital_demo_meta =
      .ok [{ time := 1 / 1000, sample := 1, chan := 0, type := true }] := by
  refine ⟨?_, ?_, ?_, ?_⟩
  · intro file meta events h e he
    obtain ⟨bits, w, rate, hev⟩ := read_digital_ok h
    rw [hev] at he
    obtain ⟨i, j, _, _, _, he2⟩ := mem_transitionEvents.1 he
    rw [he2]
    exact Nat.le_add_left 1 i
  · intro bits w rate s c ty
    constructor
    · rintro ⟨e, he, hs, hc, hty⟩
      obtain ⟨i, j, hi, hj, hne, he2⟩ := mem_transitionEvents.1 he
      rw [he2] at hs hc hty
      simp only at hs hc hty
      subst hs hc hty
      refine ⟨Nat.le_add_left 1 i, hi, hj, ?_, rfl⟩
      simpa using hne
    · rintro ⟨hs, hlen, hc, hne, hty⟩
      refine ⟨⟨((s - 1 + 1 : Nat) : ℚ) / rate, s - 1 + 1, c, bitAt bits (s - 1 + 1) c⟩,
        mem_transitionEvents.2 ⟨s - 1, c, by omega, hc, ?_, rfl⟩, by simp; omega, rfl, ?_⟩
      · rw [Nat.sub_add_cancel hs]
        exact hne
      · simp only
        rw [Nat.sub_add_cancel hs, hty]
  · intro bits w rate
    exact List.Pairwise.map _
      (fun a b hab => by
        simp only [ne_eq, Prod.mk.injEq, not_and]
        intro h1 h2
        rcases hab with h | ⟨he, hc⟩
        · omega
        · omega)
      (transitionEvents_pairwise bits w rate)
  · rfl

/-- Witness for C2: both hypothesis-bearing parts at the concrete 0→1 signal. -/
theorem c2_digital_transitions_witness :
    (1 ≤ ({ time := 1 / 1000, sample := 1, chan := 0, type := true } : Event).sample) ∧
    (∃ e ∈ transitionEvents [[false], [true]] 1 1,
      e.sample = 1 ∧ e.chan = 0 ∧ e.type = true) := by
  constructor
  · exact c2_digital_transitions.1 [0, 1] digital_demo_meta
      [{ time := 1 / 1000, sample := 1, chan := 0, type := true }]
      c2_digital_transitions.2.2.2 _ (by simp)
  · exact (c2_digital_transitions.2.1 [[false], [true]] 1 1 1 0 true).2 (by decide)

/-- C6: the event list returned by `read_digital` is ordered by strictly
    increasing (sample, line) lexicographic order — nondecreasing in
    `time_in_samples` with ties broken by ascending channel index. -/
theorem c6_event_ordering (file : List Int) (meta : Metadata) (events : List Event)
    (h : read_digital file meta = .ok events) :
    events.Pairwise
      (fun a b => a.sample < b.sample ∨ (a.sample = b.sample ∧ a.chan < b.chan)) := by
  obtain ⟨bits, w, rate, hev⟩ := read_digital_ok h
  rw [hev]
  exact transitionEvents_pairwise bits w rate

/-- Witness for C6: a 3-sample signal with two transitions, in scan order. -/
theorem c6_event_ordering_witness :
    ([{ time := 1 / 1000, sample := 1, chan := 0, type := true },
      { time := 2 / 1000, sample := 2, chan := 1, type := true }] : List Event).Pairwise
      (fun a b => a.sample < b.sample ∨ (a.sample = b.sample ∧ a.chan < b.chan)) :=
  c6_event_ordering [0, 1, 3] digital_demo_meta _ (by rfl)

/-! ### C1: microvolt scale and read_analog scaling -/

/-- Evaluation of `get_uV_per_bit` when the range maximum, max-int code and
    gain vector resolve to numbers (gains nonzero). -/
theorem get_uV_per_bit_eval (meta : Metadata) (rv mv : MetaValue) (r m : ℚ) (gains : List ℚ)
    (hai : pyOr (List.lookup "imAiRangeMax" meta) (List.lookup "niAiRangeMax" meta) = some rv)
    (hr : toNum rv = some r)
    (hmi : pyOr (pyOr (List.lookup "imMaxInt" meta) (List.lookup "niMaxInt" meta))
      (some (.int 512)) = some mv)
    (hm : toNum mv = some m) (hm0 : m ≠ 0)
    (hg : get_gain meta = .ok gains) (hg0 : ∀ g ∈ gains, g ≠ 0) :
    get_uV_per_bit meta = .ok (gains.map (fun g => 1000000 * r / m / g)) := by
  have hmb : (m == 0) = false := by simp [hm0]
  have hgb : gains.any (fun g => g == 0) = false := by
    rw [List.any_eq_false]
    intro g hgm
    simpa using hg0 g hgm
  simp [get_uV_per_bit, hai, hmi, hg, toNumE, hr, hm, hmb, hgb, Bind.bind, Except.bind]

/-- In-bounds fancy indexing of the scale vector. -/
theorem selectScale_eval (uV : List ℚ) (cidx : List Nat)
    (hc : ∀ c ∈ cidx, c < uV.length) :
    selectScale uV cidx = .ok (cidx.map (fun c => uV.getD c 0)) := by
  unfold selectScale
  apply mapME_eq_ok_map
  intro c hcm
  have hlt := hc c hcm
  rw [List.getD_eq_getElem?_getD, List.getElem?_eq_getElem hlt]
  rfl

/-- C1 (amended): the per-channel scale returned by `get_uV_per_bit` is
    `1000000 * range_max / max_int / gain` elementwise, where `range_max` is the
    first *truthy* (nonzero) value among the imec- then nidq-prefixed keys and
    `max_int` likewise falls back to 512 when both keys are absent *or zero*
    (Python `or` keeps a present-but-zero value out); and `read_analog`'s output
    is the raw `read_bin` output multiplied elementwise per channel by this
    scale restricted to the selected channels. -/
theorem c1_uv_scale_read_analog (meta : Metadata) (rv mv : MetaValue) (r m : ℚ)
    (gains : List ℚ) (file : List Int) (n : Int) (cidx : List Nat)
    (sr : Option (Nat × Nat)) (data : List (List Int))
    (hai : pyOr (List.lookup "imAiRangeMax" meta) (List.lookup "niAiRangeMax" meta) = some rv)
    (hr : toNum rv = some r)
    (hmi : pyOr (pyOr (List.lookup "imMaxInt" meta) (List.lookup "niMaxInt" meta))
      (some (.int 512)) = some mv)
    (hm : toNum mv = some m) (hm0 : m ≠ 0)
    (hg : get_gain meta = .ok gains) (hg0 : ∀ g ∈ gains, g ≠ 0)
    (hn : List.lookup "nSavedChans" meta = some (.int n)) (hn0 : 0 ≤ n)
    (hcb : ∀ c ∈ cidx, c < gains.length)
    (hrb : read_bin file n.toNat (some cidx) sr = .ok data) :
    get_uV_per_bit meta = .ok (gains.map (fun g => 1000000 * r / m / g)) ∧
    read_analog file meta (some cidx) sr =
      .ok (data.map (fun row => List.zipWith (fun (x : Int) (s : ℚ) => (x : ℚ) * s) row
        (cidx.map (fun c => (gains.map (fun g => 1000000 * r / m / g)).getD c 0)))) := by
  have huv := get_uV_per_bit_eval meta rv mv r m gains hai hr hmi hm hm0 hg hg0
  refine ⟨huv, ?_⟩
  have h1 : getNSavedChans meta = .ok n.toNat := by
    simp [getNSavedChans, lookupE, hn, Bind.bind, Except.bind, not_lt.2 hn0]
  have h5 : selectScale (gains.map (fun g => 1000000 * r / m / g)) cidx =
      .ok (cidx.map (fun c => (gains.map (fun g => 1000000 * r / m / g)).getD c 0)) := by
    apply selectScale_eval
    intro c hcm
    rw [List.length_map]
    exact hcb c hcm
  simp [read_analog, h1, resolveChannelIdx, huv, hrb, h5, Bind.bind, Except.bind]

/-- Metadata refuting C1 as stated: the imec-prefixed range key is *present*
    with value 0.0, yet Python's `or` skips it as falsy and the code uses the
    nidq-prefixed 0.6 instead. -/
def c1x_meta : Metadata :=
  [("typeThis", .str "nidq"), ("snsMnMaXaDw", .counts4 ⟨0, 0, 1, 0⟩),
   ("niMNGain", .int 1), ("niMAGain", .int 1),
   ("imAiRangeMax", .float 0), ("niAiRangeMax", .float (3 / 5))]

/-- Counterexample to C1 as stated: with `imAiRangeMax` present (= 0.0), the
    claim's "imec key if present" rule predicts the scale
    `1000000 * 0 / 512 / 1 = 0`, but `get_uV_per_bit` returns 1171.875 µV/bit
    computed from the nidq key. -/
theorem c1_counterexample :
    List.lookup "imAiRangeMax" c1x_meta = some (.float 0) ∧
    List.lookup "imMaxInt" c1x_meta = none ∧
    List.lookup "niMaxInt" c1x_meta = none ∧
    get_gain c1x_meta = .ok [1] ∧
    get_uV_per_bit c1x_meta = .ok [9375 / 8] ∧
    (9375 / 8 : ℚ) ≠ 1000000 * 0 / 512 / 1 := by
  refine ⟨rfl, rfl, rfl, by rfl, ?_, by norm_num⟩
  have h := get_uV_per_bit_eval c1x_meta (.float (3 / 5)) (.int 512) (3 / 5) 512 [1]
    (by rfl) (by rfl) (by rfl) (by rfl) (by norm_num) (by rfl)
    (by intro g hgm; simp at hgm; rw [hgm]; norm_num)
  rw [h]
  simp
  norm_num

/-- One-channel imec AP-band metadata realising the spec's worked example:
    range 0.6 V, default max-int 512, gain 500. -/
def c1_demo_meta : Metadata :=
  [("typeThis", .str "imec"), ("nSavedChans", .int 1),
   ("fileName", .str "rec.imec0.ap.bin"), ("imAiRangeMax", .float (3 / 5)),
   ("snsApLfSy", .counts3 ⟨1, 0, 0⟩),
   ("imroTbl", .imro ⟨0, 1,
      [{ channel := 0, bank := some 0, refid := some 0, apgain := 500,
         lfgain := some 250, apfilt := some 1 }]⟩)]

/-- Witness for C1 (amended) at the spec's example: scale
    `1000000 * 0.6 / 512 / 500 = 2.34375` µV/bit, and the raw sample 100
    decodes to `234.375` µV. -/
theorem c1_uv_scale_read_analog_witness :
    get_uV_per_bit c1_demo_meta =
      .ok ([(500 : ℚ)].map (fun g => 1000000 * (3 / 5) / 512 / g)) ∧
    read_analog [100] c1_demo_meta (some [0]) none = .ok [[1875 / 8]] ∧
    (1000000 * (3 / 5 : ℚ) / 512 / 500 = 75 / 32) ∧
    ((100 : ℚ) * (75 / 32) = 1875 / 8) := by
  have hai : pyOr (List.lookup "imAiRangeMax" c1_demo_meta)
      (List.lookup "niAiRangeMax" c1_demo_meta) = some (.float (3 / 5)) := by
    have hlk : List.lookup "imAiRangeMax" c1_demo_meta = some (.float (3 / 5)) := rfl
    rw [hlk]
    simp [pyOr, pyTruthy]
  have h := c1_uv_scale_read_analog c1_demo_meta (.float (3 / 5)) (.int 512) (3 / 5) 512
    [500] [100] 1 [0] none [[100]] hai (by rfl) (by rfl) (by rfl)
    (by norm_num) (by rfl) (by intro g hgm; simp at hgm; rw [hgm]; norm_num)
    (by rfl) (by norm_num) (by intro c hcm; simp at hcm; simp [hcm]) (by rfl)
  refine ⟨h.1, ?_, by norm_num, by norm_num⟩
  rw [h.2]
  simp
  norm_num
